import Mathlib

/-!
# Verification of the silver Monte Carlo simulation core

Shallow embedding of `monte_carlo_simulator.py` and `analyzer.py` from the
`Silver_Monte_Carlo_Simulation` repository, over exact rationals.

Modelling conventions:
* Prices, drifts and volatilities are `ℚ` (the Python floats, idealised to
  exact arithmetic; no claim here depends on rounding).
* `np.exp` and `np.sqrt` have no computable counterpart on `ℚ`, so they are
  abstracted as explicit function parameters `expf`/`sqrtf`; every theorem
  holds for an arbitrary such function, hence in particular for the real
  exponential/square root.
* The stream of standard-normal draws `np.random.normal(0, 1, (T, N))` is an
  explicit argument `z : ℕ → ℕ → ℚ` (indexed step-first, like the NumPy array).
* A pandas NaN produced by reducing an empty series is modelled as `none`;
  reductions that can hit this case return `Option ℚ`.
* Python exceptions are modelled by `Except PyError`.
-/

namespace SilverMC

/-- The exceptions the embedded code can signal. `indexError` is NumPy/pandas
positional indexing on an empty axis; the other two are the typed errors the
specification postulates (they never occur in the source). -/
inductive PyError where
  | indexError
  | invalidParameterError
  | insufficientDataError
deriving DecidableEq, Repr

/-- The `daily_returns` matrix of `run_monte_carlo_simulation`
(monte_carlo_simulator.py line 20): entry `(t, p)` is
`exp(drift + volatility * z[t][p])` for the standard-normal draw `z[t][p]`,
with the exponential abstracted as `expf`. -/
def daily_returns (expf : ℚ → ℚ) (drift volatility : ℚ) (z : ℕ → ℕ → ℚ) :
    ℕ → ℕ → ℚ :=
  fun t p => expf (drift + volatility * z t p)

/-- The price-path recursion of monte_carlo_simulator.py lines 23-25:
`price_paths[0] = start_price` and, for `t ≥ 1`,
`price_paths[t] = price_paths[t-1] * daily_returns[t]` (row 0 of the
`daily_returns` matrix is generated but never used). -/
def price_paths (start_price : ℚ) (dr : ℕ → ℕ → ℚ) : ℕ → ℕ → ℚ
  | 0, _ => start_price
  | t + 1, p => price_paths start_price dr t p * dr (t + 1) p

/-- Shallow embedding of `run_monte_carlo_simulation` (monte_carlo_simulator.py
lines 4-27).  The result is the price matrix as a list of rows (row = time
step, column = path).  The source performs no parameter validation; the only
failure it can hit is the assignment `price_paths[0] = start_price` raising
`IndexError` when `forecast_period = 0` (a zero-row array has no row 0). -/
def run_monte_carlo_simulation (expf : ℚ → ℚ) (start_price drift volatility : ℚ)
    (forecast_period num_simulations : ℕ) (z : ℕ → ℕ → ℚ) :
    Except PyError (List (List ℚ)) :=
  if forecast_period = 0 then .error .indexError
  else .ok ((List.range forecast_period).map fun t =>
    (List.range num_simulations).map fun p =>
      price_paths start_price (daily_returns expf drift volatility z) t p)

/-- pandas `Series.mean()`: NaN (`none`) on an empty series, otherwise the
arithmetic mean. -/
def seriesMean (l : List ℚ) : Option ℚ :=
  if l = [] then none else some (l.sum / l.length)

/-- The sample values in ascending order (pandas sorts before
interpolating; any sorting algorithm yields the same value sequence). -/
def sortedVals (l : List ℚ) : List ℚ :=
  l.insertionSort (· ≤ ·)

/-- The fractional rank `h = (n - 1) * q` at which NumPy/pandas interpolate
the `q`-quantile of an `n`-point sample. -/
def quantilePos (q : ℚ) (l : List ℚ) : ℚ :=
  ((l.length : ℚ) - 1) * q

/-- The index `i = ⌊h⌋` of the lower order statistic used by the
interpolation. -/
def quantileIdx (q : ℚ) (l : List ℚ) : ℕ :=
  (⌊quantilePos q l⌋).toNat

/-- The linearly interpolated quantile of a non-empty sample, exactly as
NumPy/pandas compute it with `interpolation='linear'`: with sorted values
`x_0 ≤ … ≤ x_(n-1)`, the value `x_i + (h - i) * (x_(i+1) - x_i)` where
`h = (n-1) * q` and `i = ⌊h⌋`.  (At `i = n - 1` the fractional part is zero,
so the out-of-range neighbour defaults harmlessly to `x_i`.) -/
def quantileVal (q : ℚ) (l : List ℚ) : ℚ :=
  let xi := (sortedVals l).getD (quantileIdx q l) 0
  xi + (quantilePos q l - (quantileIdx q l : ℚ)) *
    ((sortedVals l).getD (quantileIdx q l + 1) xi - xi)

/-- pandas `Series.quantile(q)`: NaN (`none`) on an empty series, otherwise
the linearly interpolated quantile `quantileVal q`. -/
def seriesQuantile (q : ℚ) (l : List ℚ) : Option ℚ :=
  if l = [] then none else some (quantileVal q l)

/-- Mean of a pandas boolean series such as `(final_prices < start_price)`:
the fraction of elements satisfying the predicate; NaN (`none`) when the
series is empty. -/
def boolSeriesMean (p : ℚ → Bool) (l : List ℚ) : Option ℚ :=
  if l = [] then none else some ((l.countP p : ℚ) / l.length)

/-- The `k`-th central sample moment (biased, denominator `n`), as used by
`scipy.stats.skew` and `scipy.stats.kurtosis` with their default settings. -/
def centralMoment (k : ℕ) (l : List ℚ) : ℚ :=
  let m := l.sum / l.length
  (l.map fun x => (x - m) ^ k).sum / l.length

/-- The analysis dictionary built by `analyze_simulation_results`
(analyzer.py lines 17-59), with its three groups flattened into one record;
`final_prices` is the raw cross-section kept for plotting. -/
structure Analysis where
  mean_predicted_price : Option ℚ
  median_predicted_price : Option ℚ
  percentile_5 : Option ℚ
  percentile_25 : Option ℚ
  percentile_75 : Option ℚ
  percentile_95 : Option ℚ
  VaR_95 : Option ℚ
  VaR_99 : Option ℚ
  CVaR_95 : Option ℚ
  CVaR_99 : Option ℚ
  prob_loss : Option ℚ
  prob_increase_10 : Option ℚ
  prob_increase_20 : Option ℚ
  prob_increase_30 : Option ℚ
  expected_return : Option ℚ
  std_dev_forecast : Option ℚ
  skewness : Option ℚ
  kurtosis : Option ℚ
  final_prices : List ℚ
deriving DecidableEq, Repr

/-- Shallow embedding of `analyze_simulation_results` (analyzer.py lines 4-62).
`simulations.iloc[-1]` raises `IndexError` on a zero-row frame, hence the
`getLast?` match; on a frame with rows but zero columns it yields the empty
series and every statistic degenerates to NaN (`none`).  `returns ≤ NaN`
compares false everywhere in pandas, so a NaN VaR forces an empty tail and a
NaN CVaR, which the `none`-propagating match reproduces.  `Series.std()` uses
the sample convention (`ddof=1`, NaN for fewer than two points); `skew` and
`kurtosis` are SciPy's biased estimators (`sqrtf` abstracts `np.sqrt`). -/
def analyze_simulation_results (sqrtf : ℚ → ℚ) (simulations : List (List ℚ))
    (start_price : ℚ) : Except PyError Analysis :=
  match simulations.getLast? with
  | none => .error .indexError
  | some final_prices =>
    let returns := final_prices.map fun x => x / start_price - 1
    let var_95 := seriesQuantile (5/100) returns
    let var_99 := seriesQuantile (1/100) returns
    .ok {
      mean_predicted_price := seriesMean final_prices
      median_predicted_price := seriesQuantile (50/100) final_prices
      percentile_5 := seriesQuantile (5/100) final_prices
      percentile_25 := seriesQuantile (25/100) final_prices
      percentile_75 := seriesQuantile (75/100) final_prices
      percentile_95 := seriesQuantile (95/100) final_prices
      VaR_95 := var_95
      VaR_99 := var_99
      CVaR_95 := match var_95 with
        | none => none
        | some v => seriesMean (returns.filter fun r => decide (r ≤ v))
      CVaR_99 := match var_99 with
        | none => none
        | some v => seriesMean (returns.filter fun r => decide (r ≤ v))
      prob_loss := boolSeriesMean (fun x => decide (x < start_price)) final_prices
      prob_increase_10 :=
        boolSeriesMean (fun x => decide (start_price * (110/100) < x)) final_prices
      prob_increase_20 :=
        boolSeriesMean (fun x => decide (start_price * (120/100) < x)) final_prices
      prob_increase_30 :=
        boolSeriesMean (fun x => decide (start_price * (130/100) < x)) final_prices
      expected_return := seriesMean returns
      std_dev_forecast := if final_prices.length ≤ 1 then none
        else some (sqrtf ((final_prices.map fun x =>
          (x - final_prices.sum / final_prices.length) ^ 2).sum /
            ((final_prices.length : ℚ) - 1)))
      skewness := if final_prices = [] then none
        else some (centralMoment 3 final_prices / sqrtf (centralMoment 2 final_prices) ^ 3)
      kurtosis := if final_prices = [] then none
        else some (centralMoment 4 final_prices / centralMoment 2 final_prices ^ 2 - 3)
      final_prices := final_prices
    }

/-- The returns vector exactly as the specification words it:
`r_i = final_prices[i] / start_price - 1` for every path `i`. -/
def specReturns (final_prices : List ℚ) (start_price : ℚ) : List ℚ :=
  final_prices.map fun x => x / start_price - 1

/-! ## Basic facts about the simulator -/

/-- Positional access into a mapped range. -/
theorem getD_map_range {α : Type} (f : ℕ → α) (n t : ℕ) (d : α) (ht : t < n) :
    ((List.range n).map f).getD t d = f t := by
  rw [List.getD_eq_getElem _ _ (by simpa using ht), List.getElem_map,
    List.getElem_range]

/-- For a nonzero horizon the simulator succeeds with the mapped matrix. -/
theorem run_ok (expf : ℚ → ℚ) (start_price drift volatility : ℚ)
    (forecast_period num_simulations : ℕ) (z : ℕ → ℕ → ℚ)
    (hT : forecast_period ≠ 0) :
    run_monte_carlo_simulation expf start_price drift volatility forecast_period
        num_simulations z =
      .ok ((List.range forecast_period).map fun t =>
        (List.range num_simulations).map fun p =>
          price_paths start_price (daily_returns expf drift volatility z) t p) := by
  simp [run_monte_carlo_simulation, hT]

/-- C1: for every valid parameter set (`start_price > 0`, `horizon_steps ≥ 1`,
`num_paths ≥ 1`, `volatility ≥ 0`), `run_monte_carlo_simulation` returns a
matrix with exactly `horizon_steps` rows and `num_paths` columns, and row 0
equals `start_price` in every column. -/
theorem run_monte_carlo_simulation_shape (expf : ℚ → ℚ)
    (start_price drift volatility : ℚ) (horizon_steps num_paths : ℕ)
    (z : ℕ → ℕ → ℚ) (hs : 0 < start_price) (hh : 1 ≤ horizon_steps)
    (hp : 1 ≤ num_paths) (hv : 0 ≤ volatility) :
    ∃ m, run_monte_carlo_simulation expf start_price drift volatility
        horizon_steps num_paths z = .ok m ∧
      m.length = horizon_steps ∧ (∀ row ∈ m, row.length = num_paths) ∧
      ∀ p < num_paths, (m.getD 0 []).getD p 0 = start_price := by
  refine ⟨_, run_ok expf start_price drift volatility horizon_steps num_paths z
      (by omega), by simp, ?_, ?_⟩
  · intro row hrow
    obtain ⟨t, _, rfl⟩ := List.mem_map.1 hrow
    simp
  · intro p hp'
    rw [getD_map_range _ _ _ _ (by omega : 0 < horizon_steps),
      getD_map_range _ _ _ _ hp']
    rfl

/-- Witness for C1 at a concrete parameter set. -/
theorem run_monte_carlo_simulation_shape_witness :
    ∃ m, run_monte_carlo_simulation id 10 0 0 2 3 (fun _ _ => 0) = .ok m ∧
      m.length = 2 ∧ (∀ row ∈ m, row.length = 3) ∧
      ∀ p < 3, (m.getD 0 []).getD p 0 = 10 :=
  run_monte_carlo_simulation_shape id 10 0 0 2 3 (fun _ _ => 0)
    (by norm_num) (by norm_num) (by norm_num) (by norm_num)

/-- C2 counterexample: at the invalid input `start_price = 0` (with
`horizon_steps = num_paths = 1`, `volatility = drift = 0`) the simulator
raises nothing and returns a matrix — violated preconditions are not
rejected with `InvalidParameterError`. -/
theorem run_monte_carlo_simulation_accepts_invalid :
    (0 : ℚ) ≤ 0 ∧
      run_monte_carlo_simulation id 0 0 0 1 1 (fun _ _ => 0) = .ok [[0]] :=
  ⟨le_refl 0, rfl⟩

/-- C2 amended: the simulator performs no parameter validation.  It never
fails with `InvalidParameterError`; for `horizon_steps = 0` it raises
`IndexError` (row 0 of a zero-row array does not exist), and for every
`horizon_steps ≥ 1` it returns a matrix whatever `start_price`, `drift`,
`volatility` and `num_paths` are. -/
theorem run_monte_carlo_simulation_no_validation (expf : ℚ → ℚ)
    (start_price drift volatility : ℚ) (forecast_period num_simulations : ℕ)
    (z : ℕ → ℕ → ℚ) :
    run_monte_carlo_simulation expf start_price drift volatility forecast_period
        num_simulations z ≠ .error .invalidParameterError ∧
    (forecast_period = 0 →
      run_monte_carlo_simulation expf start_price drift volatility forecast_period
        num_simulations z = .error .indexError) ∧
    (forecast_period ≠ 0 →
      ∃ m, run_monte_carlo_simulation expf start_price drift volatility
        forecast_period num_simulations z = .ok m) := by
  by_cases hT : forecast_period = 0
  · subst hT
    exact ⟨by simp [run_monte_carlo_simulation],
      fun _ => by simp [run_monte_carlo_simulation], fun h => absurd rfl h⟩
  · exact ⟨by rw [run_ok _ _ _ _ _ _ _ hT]; simp, fun h => absurd h hT,
      fun _ => ⟨_, run_ok _ _ _ _ _ _ _ hT⟩⟩

/-- Witness for the amended C2 at a concrete input. -/
theorem run_monte_carlo_simulation_no_validation_witness :
    run_monte_carlo_simulation id 1 0 0 2 1 (fun _ _ => 0) ≠
      .error .invalidParameterError ∧
    ∃ m, run_monte_carlo_simulation id 1 0 0 2 1 (fun _ _ => 0) = .ok m :=
  ⟨(run_monte_carlo_simulation_no_validation id 1 0 0 2 1 (fun _ _ => 0)).1,
   (run_monte_carlo_simulation_no_validation id 1 0 0 2 1 (fun _ _ => 0)).2.2
     (by norm_num)⟩

/-- With zero volatility every step factor is `expf drift`, so the path value
at step `t` is the closed form `start_price * expf drift ^ t`. -/
theorem price_paths_zero_volatility (expf : ℚ → ℚ) (s d : ℚ) (z : ℕ → ℕ → ℚ)
    (t p : ℕ) :
    price_paths s (daily_returns expf d 0 z) t p = s * expf d ^ t := by
  induction t with
  | zero => simp [price_paths]
  | succ t ih => simp [price_paths, ih, daily_returns, pow_succ]; ring

/-- C6: for `volatility = 0`, any `drift`, any `start_price > 0` and any step
`t < horizon_steps`, every simulated path is identical and its price at step
`t` is `start_price * exp(drift)^t` (for the abstracted exponential). -/
theorem run_monte_carlo_simulation_zero_volatility (expf : ℚ → ℚ)
    (start_price drift : ℚ) (horizon_steps num_paths : ℕ) (z : ℕ → ℕ → ℚ)
    (hs : 0 < start_price) (t : ℕ) (ht : t < horizon_steps) :
    ∃ m, run_monte_carlo_simulation expf start_price drift 0 horizon_steps
        num_paths z = .ok m ∧
      (∀ p < num_paths, (m.getD t []).getD p 0 = start_price * expf drift ^ t) ∧
      (∀ p < num_paths, ∀ q < num_paths,
        (m.getD t []).getD p 0 = (m.getD t []).getD q 0) := by
  have key : ∀ p < num_paths,
      ((((List.range horizon_steps).map fun u => (List.range num_paths).map fun v =>
          price_paths start_price (daily_returns expf drift 0 z) u v).getD t
            []).getD p 0) = start_price * expf drift ^ t := by
    intro p hp
    rw [getD_map_range _ _ _ _ ht, getD_map_range _ _ _ _ hp,
      price_paths_zero_volatility]
  exact ⟨_, run_ok expf start_price drift 0 horizon_steps num_paths z (by omega),
    key, fun p hp q hq => (key p hp).trans (key q hq).symm⟩

/-- Witness for C6 at a concrete input. -/
theorem run_monte_carlo_simulation_zero_volatility_witness :
    ∃ m, run_monte_carlo_simulation (fun _ => 2) 1 0 0 2 1 (fun _ _ => 0) = .ok m ∧
      (∀ p < 1, (m.getD 1 []).getD p 0 = 1 * (2 : ℚ) ^ 1) ∧
      (∀ p < 1, ∀ q < 1, (m.getD 1 []).getD p 0 = (m.getD 1 []).getD q 0) :=
  run_monte_carlo_simulation_zero_volatility (fun _ => 2) 1 0 2 1 (fun _ _ => 0)
    (by norm_num) 1 (by norm_num)

/-- The path recursion only reads the step factors at indices `≤ t`. -/
theorem price_paths_congr (s : ℚ) (dr1 dr2 : ℕ → ℕ → ℚ) (p t : ℕ)
    (h : ∀ u ≤ t, dr1 u p = dr2 u p) :
    price_paths s dr1 t p = price_paths s dr2 t p := by
  induction t with
  | zero => rfl
  | succ t ih =>
    simp only [price_paths]
    rw [ih fun u hu => h u (le_trans hu (Nat.le_succ t)), h (t + 1) le_rfl]

/-- C9: the simulator is a deterministic (pure) function of its parameters and
the random stream — two invocations whose streams agree on every draw of the
`horizon_steps × num_paths` block produce identical matrices; in particular
identical streams give bit-identical outputs. -/
theorem run_monte_carlo_simulation_deterministic (expf : ℚ → ℚ)
    (start_price drift volatility : ℚ) (horizon_steps num_paths : ℕ)
    (z1 z2 : ℕ → ℕ → ℚ)
    (hz : ∀ t p, t < horizon_steps → p < num_paths → z1 t p = z2 t p) :
    run_monte_carlo_simulation expf start_price drift volatility horizon_steps
        num_paths z1 =
      run_monte_carlo_simulation expf start_price drift volatility horizon_steps
        num_paths z2 := by
  unfold run_monte_carlo_simulation
  by_cases hT : horizon_steps = 0
  · simp [hT]
  · rw [if_neg hT, if_neg hT]
    congr 1
    apply List.map_congr_left
    intro t htmem
    apply List.map_congr_left
    intro p hpmem
    apply price_paths_congr
    intro u hu
    unfold daily_returns
    rw [hz u p (lt_of_le_of_lt hu (List.mem_range.1 htmem))
      (List.mem_range.1 hpmem)]

/-- Witness for C9: two syntactically different streams agreeing on the
consumed block yield the same matrix. -/
theorem run_monte_carlo_simulation_deterministic_witness :
    run_monte_carlo_simulation id 1 0 1 2 2 (fun _ _ => 0) =
      run_monte_carlo_simulation id 1 0 1 2 2
        (fun t _ => if t < 2 then 0 else 7) :=
  run_monte_carlo_simulation_deterministic id 1 0 1 2 2 _ _
    (fun t _ ht _ => by simp [ht])

/-! ## Basic facts about the analyzer -/

/-- Unfolding of the analyzer on a frame whose last row is `fp`. -/
theorem analyze_eq (sqrtf : ℚ → ℚ) (sims : List (List ℚ)) (s : ℚ)
    (fp : List ℚ) (hlast : sims.getLast? = some fp) :
    analyze_simulation_results sqrtf sims s = .ok {
      mean_predicted_price := seriesMean fp
      median_predicted_price := seriesQuantile (50/100) fp
      percentile_5 := seriesQuantile (5/100) fp
      percentile_25 := seriesQuantile (25/100) fp
      percentile_75 := seriesQuantile (75/100) fp
      percentile_95 := seriesQuantile (95/100) fp
      VaR_95 := seriesQuantile (5/100) (specReturns fp s)
      VaR_99 := seriesQuantile (1/100) (specReturns fp s)
      CVaR_95 := match seriesQuantile (5/100) (specReturns fp s) with
        | none => none
        | some v => seriesMean ((specReturns fp s).filter fun r => decide (r ≤ v))
      CVaR_99 := match seriesQuantile (1/100) (specReturns fp s) with
        | none => none
        | some v => seriesMean ((specReturns fp s).filter fun r => decide (r ≤ v))
      prob_loss := boolSeriesMean (fun x => decide (x < s)) fp
      prob_increase_10 := boolSeriesMean (fun x => decide (s * (110/100) < x)) fp
      prob_increase_20 := boolSeriesMean (fun x => decide (s * (120/100) < x)) fp
      prob_increase_30 := boolSeriesMean (fun x => decide (s * (130/100) < x)) fp
      expected_return := seriesMean (specReturns fp s)
      std_dev_forecast := if fp.length ≤ 1 then none
        else some (sqrtf ((fp.map fun x => (x - fp.sum / fp.length) ^ 2).sum /
          ((fp.length : ℚ) - 1)))
      skewness := if fp = [] then none
        else some (centralMoment 3 fp / sqrtf (centralMoment 2 fp) ^ 3)
      kurtosis := if fp = [] then none
        else some (centralMoment 4 fp / centralMoment 2 fp ^ 2 - 3)
      final_prices := fp } := by
  unfold analyze_simulation_results
  rw [hlast]
  rfl

/-- C3 counterexample: called on a frame with one row and zero paths (an empty
final-price cross-section) the analyzer does not fail with
`InsufficientDataError`; it returns a result. -/
theorem analyze_simulation_results_empty_no_error :
    analyze_simulation_results id [[]] 1 ≠
      Except.error PyError.insufficientDataError ∧
    ∃ r, analyze_simulation_results id [[]] 1 = .ok r :=
  ⟨fun h => Except.noConfusion h, ⟨_, rfl⟩⟩

/-- C3 amended: on an empty final-price cross-section (a frame whose last row
has zero paths) the analyzer raises nothing; it returns a result whose every
statistic is NaN (`none`) — NaN-filled output instead of a typed failure. -/
theorem analyze_simulation_results_empty_all_nan (sqrtf : ℚ → ℚ)
    (simulations : List (List ℚ)) (start_price : ℚ)
    (h : simulations.getLast? = some []) :
    ∃ r, analyze_simulation_results sqrtf simulations start_price = .ok r ∧
      r.mean_predicted_price = none ∧ r.median_predicted_price = none ∧
      r.percentile_5 = none ∧ r.percentile_25 = none ∧
      r.percentile_75 = none ∧ r.percentile_95 = none ∧
      r.VaR_95 = none ∧ r.VaR_99 = none ∧ r.CVaR_95 = none ∧ r.CVaR_99 = none ∧
      r.prob_loss = none ∧ r.prob_increase_10 = none ∧
      r.prob_increase_20 = none ∧ r.prob_increase_30 = none ∧
      r.expected_return = none ∧ r.std_dev_forecast = none ∧
      r.skewness = none ∧ r.kurtosis = none ∧ r.final_prices = [] :=
  ⟨_, analyze_eq sqrtf simulations start_price [] h, rfl, rfl, rfl, rfl, rfl,
    rfl, rfl, rfl, rfl, rfl, rfl, rfl, rfl, rfl, rfl, rfl, rfl, rfl, rfl⟩

/-- Witness for the amended C3 at a concrete input. -/
theorem analyze_simulation_results_empty_all_nan_witness :
    ∃ r, analyze_simulation_results id [[], []] 2 = .ok r ∧
      r.mean_predicted_price = none ∧ r.median_predicted_price = none ∧
      r.percentile_5 = none ∧ r.percentile_25 = none ∧
      r.percentile_75 = none ∧ r.percentile_95 = none ∧
      r.VaR_95 = none ∧ r.VaR_99 = none ∧ r.CVaR_95 = none ∧ r.CVaR_99 = none ∧
      r.prob_loss = none ∧ r.prob_increase_10 = none ∧
      r.prob_increase_20 = none ∧ r.prob_increase_30 = none ∧
      r.expected_return = none ∧ r.std_dev_forecast = none ∧
      r.skewness = none ∧ r.kurtosis = none ∧ r.final_prices = [] :=
  analyze_simulation_results_empty_all_nan id [[], []] 2 rfl

/-- C4: for a non-empty cross-section and positive start price the analyzer's
VaR_95 and VaR_99 are the 0.05- and 0.01-quantiles (linear-interpolation
estimation) of the returns vector `r_i = final_prices[i] / start_price - 1`
over every path. -/
theorem analyze_simulation_results_var (sqrtf : ℚ → ℚ)
    (simulations : List (List ℚ)) (start_price : ℚ) (final_prices : List ℚ)
    (hlast : simulations.getLast? = some final_prices)
    (hne : final_prices ≠ []) (hs : 0 < start_price) :
    ∃ r, analyze_simulation_results sqrtf simulations start_price = .ok r ∧
      r.VaR_95 = some (quantileVal (5/100) (specReturns final_prices start_price)) ∧
      r.VaR_99 = some (quantileVal (1/100) (specReturns final_prices start_price)) := by
  have hret : specReturns final_prices start_price ≠ [] := by
    simpa [specReturns] using hne
  refine ⟨_, analyze_eq sqrtf simulations start_price final_prices hlast, ?_, ?_⟩ <;>
    · show seriesQuantile _ _ = _
      rw [seriesQuantile, if_neg hret]

/-- Witness for C4 at a concrete input. -/
theorem analyze_simulation_results_var_witness :
    ∃ r, analyze_simulation_results id [[1, 3]] 2 = .ok r ∧
      r.VaR_95 = some (quantileVal (5/100) (specReturns [1, 3] 2)) ∧
      r.VaR_99 = some (quantileVal (1/100) (specReturns [1, 3] 2)) :=
  analyze_simulation_results_var id [[1, 3]] 2 [1, 3] rfl (by decide) (by norm_num)

/-- C5: whenever the tail set `{r_i : r_i ≤ VaR_c}` is non-empty, the reported
CVaR_c is the arithmetic mean of exactly those returns, for both confidence
levels. -/
theorem analyze_simulation_results_cvar (sqrtf : ℚ → ℚ)
    (simulations : List (List ℚ)) (start_price : ℚ) (final_prices : List ℚ)
    (hlast : simulations.getLast? = some final_prices)
    (hne : final_prices ≠ []) :
    ∃ r, analyze_simulation_results sqrtf simulations start_price = .ok r ∧
      (∀ v, r.VaR_95 = some v →
        (specReturns final_prices start_price).filter
            (fun x => decide (x ≤ v)) ≠ [] →
        r.CVaR_95 = some
          (((specReturns final_prices start_price).filter
              (fun x => decide (x ≤ v))).sum /
            ((specReturns final_prices start_price).filter
              (fun x => decide (x ≤ v))).length)) ∧
      (∀ v, r.VaR_99 = some v →
        (specReturns final_prices start_price).filter
            (fun x => decide (x ≤ v)) ≠ [] →
        r.CVaR_99 = some
          (((specReturns final_prices start_price).filter
              (fun x => decide (x ≤ v))).sum /
            ((specReturns final_prices start_price).filter
              (fun x => decide (x ≤ v))).length)) := by
  refine ⟨_, analyze_eq sqrtf simulations start_price final_prices hlast, ?_, ?_⟩ <;>
    · intro v hv htail
      dsimp only at hv ⊢
      simp only [hv]
      rw [seriesMean, if_neg htail]

/-- Witness for C5 at a concrete input. -/
theorem analyze_simulation_results_cvar_witness :
    ∃ r, analyze_simulation_results id [[1, 3]] 2 = .ok r ∧
      (∀ v, r.VaR_95 = some v →
        (specReturns [1, 3] 2).filter (fun x => decide (x ≤ v)) ≠ [] →
        r.CVaR_95 = some
          (((specReturns [1, 3] 2).filter (fun x => decide (x ≤ v))).sum /
            ((specReturns [1, 3] 2).filter (fun x => decide (x ≤ v))).length)) ∧
      (∀ v, r.VaR_99 = some v →
        (specReturns [1, 3] 2).filter (fun x => decide (x ≤ v)) ≠ [] →
        r.CVaR_99 = some
          (((specReturns [1, 3] 2).filter (fun x => decide (x ≤ v))).sum /
            ((specReturns [1, 3] 2).filter (fun x => decide (x ≤ v))).length)) :=
  analyze_simulation_results_cvar id [[1, 3]] 2 [1, 3] rfl (by decide)

/-- Counting below and at-or-above a threshold partitions a rational list. -/
theorem countP_lt_add_countP_ge (s : ℚ) (l : List ℚ) :
    l.countP (fun x => decide (x < s)) + l.countP (fun x => decide (s ≤ x)) =
      l.length := by
  induction l with
  | nil => rfl
  | cons a l ih =>
    rcases lt_or_le a s with h | h
    · simp only [List.countP_cons, List.length_cons, decide_eq_true_eq, h,
        if_true, h.not_le, if_false]
      omega
    · simp only [List.countP_cons, List.length_cons, decide_eq_true_eq, h,
        if_true, h.not_lt, if_false]
      omega

/-- C7: for a non-empty cross-section, the reported `prob_loss` (fraction of
paths with `final_price < start_price`) plus the fraction of paths with
`final_price ≥ start_price` equals 1 exactly. -/
theorem analyze_simulation_results_prob_loss_complement (sqrtf : ℚ → ℚ)
    (simulations : List (List ℚ)) (start_price : ℚ) (final_prices : List ℚ)
    (hlast : simulations.getLast? = some final_prices)
    (hne : final_prices ≠ []) :
    ∃ r pl, analyze_simulation_results sqrtf simulations start_price = .ok r ∧
      r.prob_loss = some pl ∧
      pl + (final_prices.countP (fun x => decide (start_price ≤ x)) : ℚ) /
        final_prices.length = 1 := by
  refine ⟨_, (final_prices.countP (fun x => decide (x < start_price)) : ℚ) /
      final_prices.length,
    analyze_eq sqrtf simulations start_price final_prices hlast, ?_, ?_⟩
  · show boolSeriesMean _ _ = _
    rw [boolSeriesMean, if_neg hne]
  · have hn : (final_prices.length : ℚ) ≠ 0 :=
      Nat.cast_ne_zero.2 fun h0 => hne (List.length_eq_zero.1 h0)
    rw [div_add_div_same, ← Nat.cast_add, countP_lt_add_countP_ge]
    exact div_self hn

/-- Witness for C7 at a concrete input. -/
theorem analyze_simulation_results_prob_loss_complement_witness :
    ∃ r pl, analyze_simulation_results id [[1, 3]] 2 = .ok r ∧
      r.prob_loss = some pl ∧
      pl + (([1, 3] : List ℚ).countP (fun x => decide ((2 : ℚ) ≤ x)) : ℚ) /
        ([1, 3] : List ℚ).length = 1 :=
  analyze_simulation_results_prob_loss_complement id [[1, 3]] 2 [1, 3] rfl
    (by decide)

/-! ## Order properties of the interpolated quantile -/

/-- The sorted sample is sorted. -/
theorem sortedVals_sorted (l : List ℚ) : (sortedVals l).Sorted (· ≤ ·) :=
  List.sorted_insertionSort _ l

/-- Sorting preserves the sample size. -/
theorem sortedVals_length (l : List ℚ) : (sortedVals l).length = l.length :=
  (List.perm_insertionSort _ l).length_eq

/-- Entries of a sorted list are monotone in the index. -/
theorem sorted_getD_mono {s : List ℚ} (hs : s.Sorted (· ≤ ·)) {i j : ℕ}
    (hij : i ≤ j) (hj : j < s.length) : s.getD i 0 ≤ s.getD j 0 := by
  rw [List.getD_eq_get _ _ (lt_of_le_of_lt hij hj), List.getD_eq_get _ _ hj]
  exact hs.rel_get_of_le (Fin.mk_le_mk.2 hij)

/-- In a sorted list, the successor entry (defaulting to the current entry
when out of range) is at least the current entry. -/
theorem sorted_getD_succ_ge {s : List ℚ} (hs : s.Sorted (· ≤ ·)) (i : ℕ) :
    s.getD i 0 ≤ s.getD (i + 1) (s.getD i 0) := by
  by_cases h : i + 1 < s.length
  · have h2 := sorted_getD_mono hs (Nat.le_succ i) h
    have h3 : s.getD (i + 1) (s.getD i 0) = s.getD (i + 1) 0 := by
      rw [List.getD_eq_get _ _ h, List.getD_eq_get _ _ h]
    rw [h3]
    exact h2
  · rw [List.getD_eq_default _ _ (Nat.le_of_not_lt h)]

/-- Explicit form of the interpolation. -/
theorem quantileVal_eq (q : ℚ) (l : List ℚ) :
    quantileVal q l =
      (sortedVals l).getD (quantileIdx q l) 0 +
        (quantilePos q l - (quantileIdx q l : ℚ)) *
          ((sortedVals l).getD (quantileIdx q l + 1)
              ((sortedVals l).getD (quantileIdx q l) 0) -
            (sortedVals l).getD (quantileIdx q l) 0) := rfl

/-- For `0 ≤ q ≤ 1` on a non-empty sample, the interpolation rank lies in
`[i, i+1)` over its index `i`, and the index is in range. -/
theorem quantileIdx_facts (q : ℚ) (l : List ℚ) (hl : l ≠ [])
    (h0 : 0 ≤ q) (h1 : q ≤ 1) :
    ((quantileIdx q l : ℚ) ≤ quantilePos q l ∧
      quantilePos q l < (quantileIdx q l : ℚ) + 1) ∧
    quantileIdx q l < l.length := by
  have hn : 0 < l.length := List.length_pos.2 hl
  have hn1 : (1 : ℚ) ≤ (l.length : ℚ) := by exact_mod_cast hn
  have hp0 : 0 ≤ quantilePos q l := mul_nonneg (by linarith) h0
  have hfl0 : (0 : ℤ) ≤ ⌊quantilePos q l⌋ := Int.floor_nonneg.2 hp0
  have hic : ((quantileIdx q l : ℕ) : ℚ) = ((⌊quantilePos q l⌋ : ℤ) : ℚ) := by
    rw [quantileIdx]
    exact_mod_cast Int.toNat_of_nonneg hfl0
  refine ⟨⟨?_, ?_⟩, ?_⟩
  · rw [hic]
    exact Int.floor_le _
  · rw [hic]
    exact Int.lt_floor_add_one _
  · have hup : quantilePos q l ≤ (l.length : ℚ) - 1 := by
      calc quantilePos q l = ((l.length : ℚ) - 1) * q := rfl
        _ ≤ ((l.length : ℚ) - 1) * 1 :=
          mul_le_mul_of_nonneg_left h1 (by linarith)
        _ = (l.length : ℚ) - 1 := mul_one _
    have hcast : (((l.length : ℤ) - 1 : ℤ) : ℚ) = (l.length : ℚ) - 1 := by
      push_cast
      ring
    have hfloor : ⌊quantilePos q l⌋ ≤ (l.length : ℤ) - 1 := by
      have h2 := Int.floor_mono hup
      rwa [← hcast, Int.floor_intCast] at h2
    rw [quantileIdx]
    omega

/-- The interpolated quantile is at least the lower order statistic used. -/
theorem getD_quantileIdx_le_quantileVal (q : ℚ) (l : List ℚ) (hl : l ≠ [])
    (h0 : 0 ≤ q) (h1 : q ≤ 1) :
    (sortedVals l).getD (quantileIdx q l) 0 ≤ quantileVal q l := by
  obtain ⟨⟨hfl, hfu⟩, hin⟩ := quantileIdx_facts q l hl h0 h1
  have hd := sorted_getD_succ_ge (sortedVals_sorted l) (quantileIdx q l)
  rw [quantileVal_eq]
  nlinarith [hd, hfl]

/-- The interpolated quantile is at most the upper order statistic used. -/
theorem quantileVal_le_getD_succ (q : ℚ) (l : List ℚ) (hl : l ≠ [])
    (h0 : 0 ≤ q) (h1 : q ≤ 1) :
    quantileVal q l ≤
      (sortedVals l).getD (quantileIdx q l + 1)
        ((sortedVals l).getD (quantileIdx q l) 0) := by
  obtain ⟨⟨hfl, hfu⟩, hin⟩ := quantileIdx_facts q l hl h0 h1
  have hd := sorted_getD_succ_ge (sortedVals_sorted l) (quantileIdx q l)
  rw [quantileVal_eq]
  nlinarith [hd, hfl, hfu]

/-- The linearly interpolated quantile is monotone in the quantile level. -/
theorem quantileVal_mono (l : List ℚ) (hl : l ≠ []) {q1 q2 : ℚ}
    (h0 : 0 ≤ q1) (h12 : q1 ≤ q2) (h1 : q2 ≤ 1) :
    quantileVal q1 l ≤ quantileVal q2 l := by
  have h0' : 0 ≤ q2 := le_trans h0 h12
  have h1' : q1 ≤ 1 := le_trans h12 h1
  have hn : 0 < l.length := List.length_pos.2 hl
  have hn1 : (1 : ℚ) ≤ (l.length : ℚ) := by exact_mod_cast hn
  have hp12 : quantilePos q1 l ≤ quantilePos q2 l := by
    rw [quantilePos, quantilePos]
    exact mul_le_mul_of_nonneg_left h12 (by linarith)
  have hi12 : quantileIdx q1 l ≤ quantileIdx q2 l := by
    have := Int.floor_mono hp12
    rw [quantileIdx, quantileIdx]
    omega
  obtain ⟨⟨hfl1, hfu1⟩, hin1⟩ := quantileIdx_facts q1 l hl h0 h1'
  obtain ⟨⟨hfl2, hfu2⟩, hin2⟩ := quantileIdx_facts q2 l hl h0' h1
  have hs := sortedVals_sorted l
  have hlen := sortedVals_length l
  rcases eq_or_lt_of_le hi12 with heq | hlt
  · rw [quantileVal_eq, quantileVal_eq, ← heq]
    have hd := sorted_getD_succ_ge hs (quantileIdx q1 l)
    have hmul := mul_le_mul_of_nonneg_right
      (sub_le_sub_right hp12 ((quantileIdx q1 l : ℚ)))
      (sub_nonneg.2 hd)
    linarith
  · have hin1' : quantileIdx q1 l + 1 < (sortedVals l).length := by
      rw [hlen]
      omega
    calc quantileVal q1 l
        ≤ (sortedVals l).getD (quantileIdx q1 l + 1)
            ((sortedVals l).getD (quantileIdx q1 l) 0) :=
          quantileVal_le_getD_succ q1 l hl h0 h1'
      _ = (sortedVals l).getD (quantileIdx q1 l + 1) 0 := by
          rw [List.getD_eq_get _ _ hin1', List.getD_eq_get _ _ hin1']
      _ ≤ (sortedVals l).getD (quantileIdx q2 l) 0 :=
          sorted_getD_mono hs hlt (by rw [hlen]; exact hin2)
      _ ≤ quantileVal q2 l :=
          getD_quantileIdx_le_quantileVal q2 l hl h0' h1

/-- Some sample element lies at or below the interpolated quantile. -/
theorem exists_mem_le_quantileVal (q : ℚ) (l : List ℚ) (hl : l ≠ [])
    (h0 : 0 ≤ q) (h1 : q ≤ 1) : ∃ x ∈ l, x ≤ quantileVal q l := by
  obtain ⟨-, hin⟩ := quantileIdx_facts q l hl h0 h1
  have hin' : quantileIdx q l < (sortedVals l).length := by
    rw [sortedVals_length]
    exact hin
  refine ⟨(sortedVals l).getD (quantileIdx q l) 0, ?_,
    getD_quantileIdx_le_quantileVal q l hl h0 h1⟩
  rw [List.getD_eq_get _ _ hin']
  exact (List.perm_insertionSort _ l).mem_iff.1 (List.get_mem _ _ _)

/-- C8 counterexample: for the one-path cross-section `[2]` with start price
`1` every return is `+100%`, so the reported VaR_95 is `1 > 0` — the claimed
`VaR_95 ≤ 0` fails on the code. -/
theorem analyze_simulation_results_var95_positive :
    ∃ r, analyze_simulation_results id [[2]] 1 = .ok r ∧
      r.VaR_95 = some 1 ∧ ¬(1 : ℚ) ≤ 0 := by
  refine ⟨_, analyze_eq id [[2]] 1 [2] rfl, ?_, by norm_num⟩
  show seriesQuantile (5/100) (specReturns [2] 1) = some 1
  have h1 : specReturns [2] 1 = [1] := by norm_num [specReturns]
  rw [h1, seriesQuantile, if_neg (by simp : ¬([1] : List ℚ) = [])]
  simp [quantileVal, quantileIdx, quantilePos, sortedVals]

/-- C8 amended: for every non-empty cross-section, VaR_99 ≤ VaR_95 and the
price-prediction percentiles are monotonically ordered
(5th ≤ 25th ≤ median ≤ 75th ≤ 95th); the claim's additional `VaR_95 ≤ 0`
does not hold in general (see the counterexample). -/
theorem analyze_simulation_results_quantile_order (sqrtf : ℚ → ℚ)
    (simulations : List (List ℚ)) (start_price : ℚ) (final_prices : List ℚ)
    (hlast : simulations.getLast? = some final_prices)
    (hne : final_prices ≠ []) :
    ∃ r v99 v95 p5 p25 med p75 p95,
      analyze_simulation_results sqrtf simulations start_price = .ok r ∧
      r.VaR_99 = some v99 ∧ r.VaR_95 = some v95 ∧ v99 ≤ v95 ∧
      r.percentile_5 = some p5 ∧ r.percentile_25 = some p25 ∧
      r.median_predicted_price = some med ∧ r.percentile_75 = some p75 ∧
      r.percentile_95 = some p95 ∧
      p5 ≤ p25 ∧ p25 ≤ med ∧ med ≤ p75 ∧ p75 ≤ p95 := by
  have hret : specReturns final_prices start_price ≠ [] := by
    simpa [specReturns] using hne
  refine ⟨_, quantileVal (1/100) (specReturns final_prices start_price),
    quantileVal (5/100) (specReturns final_prices start_price),
    quantileVal (5/100) final_prices, quantileVal (25/100) final_prices,
    quantileVal (50/100) final_prices, quantileVal (75/100) final_prices,
    quantileVal (95/100) final_prices,
    analyze_eq sqrtf simulations start_price final_prices hlast,
    ?_, ?_, ?_, ?_, ?_, ?_, ?_, ?_, ?_, ?_, ?_, ?_⟩
  · show seriesQuantile _ _ = _
    rw [seriesQuantile, if_neg hret]
  · show seriesQuantile _ _ = _
    rw [seriesQuantile, if_neg hret]
  · exact quantileVal_mono _ hret (by norm_num) (by norm_num) (by norm_num)
  · show seriesQuantile _ _ = _
    rw [seriesQuantile, if_neg hne]
  · show seriesQuantile _ _ = _
    rw [seriesQuantile, if_neg hne]
  · show seriesQuantile _ _ = _
    rw [seriesQuantile, if_neg hne]
  · show seriesQuantile _ _ = _
    rw [seriesQuantile, if_neg hne]
  · show seriesQuantile _ _ = _
    rw [seriesQuantile, if_neg hne]
  · exact quantileVal_mono _ hne (by norm_num) (by norm_num) (by norm_num)
  · exact quantileVal_mono _ hne (by norm_num) (by norm_num) (by norm_num)
  · exact quantileVal_mono _ hne (by norm_num) (by norm_num) (by norm_num)
  · exact quantileVal_mono _ hne (by norm_num) (by norm_num) (by norm_num)

/-- Witness for the amended C8 at a concrete input. -/
theorem analyze_simulation_results_quantile_order_witness :
    ∃ r v99 v95 p5 p25 med p75 p95,
      analyze_simulation_results id [[1, 2, 4]] 2 = .ok r ∧
      r.VaR_99 = some v99 ∧ r.VaR_95 = some v95 ∧ v99 ≤ v95 ∧
      r.percentile_5 = some p5 ∧ r.percentile_25 = some p25 ∧
      r.median_predicted_price = some med ∧ r.percentile_75 = some p75 ∧
      r.percentile_95 = some p95 ∧
      p5 ≤ p25 ∧ p25 ≤ med ∧ med ≤ p75 ∧ p75 ≤ p95 :=
  analyze_simulation_results_quantile_order id [[1, 2, 4]] 2 [1, 2, 4] rfl
    (by decide)

/-- C10: for every non-empty cross-section the CVaR tail sets are non-empty
(the minimum return lies at or below each interpolated quantile), so the
mean-of-empty branch is unreachable and the analyzer never reports NaN for
CVaR_95 or CVaR_99. -/
theorem analyze_simulation_results_cvar_never_nan (sqrtf : ℚ → ℚ)
    (simulations : List (List ℚ)) (start_price : ℚ) (final_prices : List ℚ)
    (hlast : simulations.getLast? = some final_prices)
    (hne : final_prices ≠ []) :
    ∃ r, analyze_simulation_results sqrtf simulations start_price = .ok r ∧
      r.CVaR_95 ≠ none ∧ r.CVaR_99 ≠ none := by
  have hret : specReturns final_prices start_price ≠ [] := by
    simpa [specReturns] using hne
  have key : ∀ q : ℚ, 0 ≤ q → q ≤ 1 →
      (match seriesQuantile q (specReturns final_prices start_price) with
        | none => none
        | some v => seriesMean ((specReturns final_prices start_price).filter
            fun r => decide (r ≤ v))) ≠ (none : Option ℚ) := by
    intro q hq0 hq1
    have hq : seriesQuantile q (specReturns final_prices start_price) =
        some (quantileVal q (specReturns final_prices start_price)) := by
      rw [seriesQuantile, if_neg hret]
    rw [hq]
    obtain ⟨x, hmem, hle⟩ :=
      exists_mem_le_quantileVal q (specReturns final_prices start_price)
        hret hq0 hq1
    have hfil : (specReturns final_prices start_price).filter
        (fun r => decide (r ≤ quantileVal q
          (specReturns final_prices start_price))) ≠ [] := by
      intro hemp
      have hx : x ∈ (specReturns final_prices start_price).filter
          (fun r => decide (r ≤ quantileVal q
            (specReturns final_prices start_price))) :=
        List.mem_filter.2 ⟨hmem, by simpa using hle⟩
      rw [hemp] at hx
      exact absurd hx (List.not_mem_nil x)
    show seriesMean _ ≠ none
    rw [seriesMean, if_neg hfil]
    exact Option.some_ne_none _
  exact ⟨_, analyze_eq sqrtf simulations start_price final_prices hlast,
    key (5/100) (by norm_num) (by norm_num),
    key (1/100) (by norm_num) (by norm_num)⟩

/-- Witness for C10 at a concrete input. -/
theorem analyze_simulation_results_cvar_never_nan_witness :
    ∃ r, analyze_simulation_results id [[5]] 2 = .ok r ∧
      r.CVaR_95 ≠ none ∧ r.CVaR_99 ≠ none :=
  analyze_simulation_results_cvar_never_nan id [[5]] 2 [5] rfl (by decide)

end SilverMC
